import Mathlib

/-!
Verification development for the sparse autoencoder training engine of this
repository.  The demo notebook wires together the library components
(`SparseAutoencoder` with its `LinearEncoder`/`UnitNormDecoder`/`TiedBias`,
`AdamWithReset`, `ActivationResampler`, the activation store, the `LossReducer`
and the training `Pipeline`).  The components themselves are modelled below from
the specification, faithful to its words; the demo's concrete configuration
(loss composition, `n_learned_features = int(src_d_mlp * expansion_factor)`,
store/budget sizes) is taken from the notebook.
-/

/-- Modelled from the spec: the autoencoder's learnable parameters (data model,
with the `SparseAutoencoder` module structure of the demo).  The feature axis is
the first index: `encoderWeight i j` is component `j` of the encoder row of
learned feature `i`, `decoderWeight i j` is component `j` of the decoder column
of learned feature `i`, `encoderBias i` is the encoder bias entry of feature
`i`, and `tiedBias` is the single bias shared between the pre-encoder and
post-decoder positions. -/
structure SAEParams (α : Type) where
  tiedBias : ℕ → α
  encoderWeight : ℕ → ℕ → α
  encoderBias : ℕ → α
  decoderWeight : ℕ → ℕ → α

/-- Modelled from the spec: the stable names under which the reset-aware
optimizer tracks the autoencoder's parameters. -/
inductive ParamName where
  | tiedBias
  | encoderWeight
  | encoderBias
  | decoderWeight
  deriving DecidableEq

/-- Uniform read of the entry at feature index `i` (component `j`) of the named
parameter; for the bias vectors the component index is ignored. -/
def paramAt {α : Type} (p : SAEParams α) : ParamName → ℕ → ℕ → α
  | .tiedBias, i, _ => p.tiedBias i
  | .encoderWeight, i, j => p.encoderWeight i j
  | .encoderBias, i, _ => p.encoderBias i
  | .decoderWeight, i, j => p.decoderWeight i j

/-- Modelled from the spec: zero the slices at feature indices `idxs` of the
named parameter buffer, leaving every other slice and every other parameter
buffer unchanged. -/
def zeroFeatureSlices {α : Type} [Zero α] (name : ParamName) (idxs : List ℕ)
    (p : SAEParams α) : SAEParams α :=
  match name with
  | .tiedBias =>
    { p with tiedBias := fun i => if i ∈ idxs then 0 else p.tiedBias i }
  | .encoderWeight =>
    { p with encoderWeight := fun i j => if i ∈ idxs then 0 else p.encoderWeight i j }
  | .encoderBias =>
    { p with encoderBias := fun i => if i ∈ idxs then 0 else p.encoderBias i }
  | .decoderWeight =>
    { p with decoderWeight := fun i j => if i ∈ idxs then 0 else p.decoderWeight i j }

/-- Modelled from the spec: per-parameter first/second moment estimates, each
with the same shape as the corresponding parameter tensor. -/
structure AdamMoments (α : Type) where
  m1 : SAEParams α
  m2 : SAEParams α

/-- Modelled from the spec: the reset-aware optimizer (`AdamWithReset`) tracks
the parameter values and their moment estimates. -/
structure AdamWithReset (α : Type) where
  params : SAEParams α
  moments : AdamMoments α

/-- Modelled from the spec: `reset_state` zeroes the moment-estimate slices of
the named parameter at the given feature indices, touching neither the
parameter values themselves nor any other slice's moments. -/
def AdamWithReset.resetState {α : Type} [Zero α] (o : AdamWithReset α)
    (name : ParamName) (idxs : List ℕ) : AdamWithReset α :=
  { o with
    moments :=
      { m1 := zeroFeatureSlices name idxs o.moments.m1
        m2 := zeroFeatureSlices name idxs o.moments.m2 } }

/-- Modelled from the spec: the replacement directions computed by the
resampler for each dead feature — a new (normalized) decoder column and the
paired rescaled encoder row. -/
structure ResampleDirections (α : Type) where
  decCol : ℕ → ℕ → α
  encRow : ℕ → ℕ → α

/-- Modelled from the spec: `ActivationResampler` application — for each dead
feature write the new encoder row, reset the encoder bias entry to zero and
write the new decoder column, then call the optimizer's `reset_state` for
exactly those feature slices of the encoder weight, encoder bias and decoder
weight; zero dead features is a no-op that skips the optimizer reset
entirely. -/
def applyResampling {α : Type} [Zero α] (dead : List ℕ)
    (dirs : ResampleDirections α) (o : AdamWithReset α) : AdamWithReset α :=
  if dead = [] then o
  else
    let p := o.params
    let newParams : SAEParams α :=
      { p with
        encoderWeight := fun i j => if i ∈ dead then dirs.encRow i j else p.encoderWeight i j,
        encoderBias := fun i => if i ∈ dead then 0 else p.encoderBias i,
        decoderWeight := fun i j => if i ∈ dead then dirs.decCol i j else p.decoderWeight i j }
    (({ o with params := newParams }).resetState .encoderWeight dead
      |>.resetState .encoderBias dead
      |>.resetState .decoderWeight dead)

/-- Modelled from the spec: the rectification nonlinearity (ReLU) applied by
the linear encoder. -/
def relu (x : ℚ) : ℚ := max x 0

/-- Modelled from the spec: the encoder output for learned feature `i` —
subtract the tied bias from the raw input, apply the affine encoder transform,
then the rectification. -/
def encodedActs (dIn : ℕ) (p : SAEParams ℚ) (x : ℕ → ℚ) (i : ℕ) : ℚ :=
  relu (p.encoderBias i +
    ∑ j ∈ Finset.range dIn, p.encoderWeight i j * (x j - p.tiedBias j))

/-- Squared L2 norm of decoder column `i` (its first `dIn` components). -/
noncomputable def normSqCol (dIn : ℕ) (p : SAEParams ℝ) (i : ℕ) : ℝ :=
  ∑ j ∈ Finset.range dIn, (p.decoderWeight i j) ^ 2

/-- L2 norm of decoder column `i`. -/
noncomputable def l2normCol (dIn : ℕ) (p : SAEParams ℝ) (i : ℕ) : ℝ :=
  Real.sqrt (normSqCol dIn p i)

/-- Modelled from the spec: the `UnitNormDecoder` constraint — renormalize
every decoder column by dividing it by its L2 norm. -/
noncomputable def constrainUnitNorm (dIn : ℕ) (p : SAEParams ℝ) : SAEParams ℝ :=
  { p with decoderWeight := fun i j => p.decoderWeight i j / l2normCol dIn p i }

/-- Modelled from the spec: one training step's parameter effect — an arbitrary
optimizer update followed by the decoder-column renormalization, which runs
after every optimizer step and before the next forward pass. -/
noncomputable def trainStepWithRenorm (dIn : ℕ)
    (optStep : SAEParams ℝ → SAEParams ℝ) (p : SAEParams ℝ) : SAEParams ℝ :=
  constrainUnitNorm dIn (optStep p)

/-- Modelled from the spec: the fixed-capacity in-memory activation store — a
bounded collection of activation vectors. -/
structure ActivationStore where
  capacity : ℕ
  items : List (List ℚ)

/-- Modelled from the spec: the error raised when an append would overfill the
store. -/
inductive StoreError where
  | capacityExceeded
  deriving DecidableEq

/-- Number of stored vectors. -/
def ActivationStore.size (s : ActivationStore) : ℕ := s.items.length

/-- Modelled from the spec: `append(vectors)` adds activation vectors and fails
with `CapacityExceeded` if the addition would exceed capacity. -/
def ActivationStore.append (s : ActivationStore) (vs : List (List ℚ)) :
    Except StoreError ActivationStore :=
  if s.capacity < s.items.length + vs.length then .error .capacityExceeded
  else .ok { s with items := s.items ++ vs }

/-- A freshly allocated store of the given capacity. -/
def emptyStore (cap : ℕ) : ActivationStore := { capacity := cap, items := [] }

/-- A sequence of `append` calls, propagating the first failure. -/
def appendAll (s : ActivationStore) : List (List (List ℚ)) → Except StoreError ActivationStore
  | [] => .ok s
  | b :: bs =>
    match s.append b with
    | .error e => .error e
    | .ok t => appendAll t bs

/-- Split a list into consecutive batches of `bs` elements each (the last batch
may be smaller). -/
def chunks {α : Type} (bs : ℕ) : List α → List (List α)
  | [] => []
  | x :: xs => (x :: xs.take (bs - 1)) :: chunks bs (xs.drop (bs - 1))
termination_by l => l.length
decreasing_by simp [List.length_drop]; omega

/-- Modelled from the spec: `sample_batches(batch_size)` shuffles the stored
vectors across batches and yields a finite sequence of mini-batches covering
every stored vector exactly once per call; the shuffle is modelled as rotation
by the random draw, a permutation of the stored vectors. -/
def sampleBatches (randomDraw bs : ℕ) (s : ActivationStore) : List (List (List ℚ)) :=
  chunks bs (s.items.rotate randomDraw)

/-- Modelled from the spec: the orchestrator's state machine phases. -/
inductive Phase where
  | generating
  | training
  | resampling
  | done
  deriving DecidableEq

/-- Modelled from the spec: pipeline run state — current phase, cumulative
count of activations processed, current store fill, and the recorded sizes of
the completed GENERATING→TRAINING cycles. -/
structure PipelineState where
  phase : Phase
  processed : ℕ
  store : ℕ
  cycles : List ℕ
  deriving DecidableEq

/-- Modelled from the spec: one phase-level transition of the orchestrator.  In
GENERATING the store is filled up to capacity or up to the remaining activation
budget and the machine moves to TRAINING; in TRAINING the store contents are
fully consumed (completing one GENERATING→TRAINING cycle, whose size is
recorded), the store is cleared, and the machine moves to DONE when the
cumulative budget is reached, else back to GENERATING; DONE is terminal. -/
def pipelineStep (capacity maxActivations : ℕ) (s : PipelineState) : PipelineState :=
  match s.phase with
  | .done => s
  | .resampling => { s with phase := .generating }
  | .generating =>
    if maxActivations ≤ s.processed then { s with phase := .done }
    else { s with store := min capacity (maxActivations - s.processed), phase := .training }
  | .training =>
    let newProcessed := s.processed + s.store
    { phase := if maxActivations ≤ newProcessed then .done else .generating,
      processed := newProcessed,
      store := 0,
      cycles := s.cycles ++ [s.store] }

/-- The pipeline's initial run state. -/
def initialPipelineState : PipelineState :=
  { phase := .generating, processed := 0, store := 0, cycles := [] }

/-- One batch's worth of autoencoder outputs, as seen by the loss functions. -/
structure ForwardOutput where
  sourceBatch : List (List ℚ)
  learnedActivations : List (List ℚ)
  reconstruction : List (List ℚ)

/-- Arithmetic mean of a list of rationals (0 for the empty list). -/
def listMean (l : List ℚ) : ℚ := l.sum / l.length

/-- Modelled from the spec: the L1 sparsity penalty — the configured
coefficient times the mean over batch and features of the learned-activation
magnitudes. -/
def l1LossVal (coef : ℚ) (acts : List (List ℚ)) : ℚ :=
  coef * listMean (acts.flatten.map (fun a => |a|))

/-- Modelled from the spec: the MSE reconstruction loss — mean squared error
between the input batch and its reconstruction. -/
def mseLossVal (input recon : List (List ℚ)) : ℚ :=
  listMean (List.zipWith (fun a b => (a - b) ^ 2) input.flatten recon.flatten)

/-- Modelled from the spec: the `LossReducer` — evaluates its named sub-losses
on the forward output and returns the total (their sum, accumulated additively)
together with the named breakdown. -/
def reduceLosses (subs : List (String × (ForwardOutput → ℚ))) (out : ForwardOutput) :
    ℚ × List (String × ℚ) :=
  let items := subs.map (fun sub => (sub.1, sub.2 out))
  (items.foldl (fun acc it => acc + it.2) 0, items)

/-- The demo notebook's loss configuration: `LearnedActivationsL1Loss` plus
`MSEReconstructionLoss`, combined by the `LossReducer`. -/
def demoLossConfig (coef : ℚ) : List (String × (ForwardOutput → ℚ)) :=
  [("learned_activations_l1_loss_penalty", fun out => l1LossVal coef out.learnedActivations),
   ("mse_reconstruction_loss", fun out => mseLossVal out.sourceBatch out.reconstruction)]

/-- Modelled from the spec: an idealized floating-point scalar — either a
finite value or a non-finite one (NaN or ±Inf). -/
inductive FPVal where
  | finite (x : ℚ)
  | nonFinite
  deriving DecidableEq

/-- Whether the scalar is finite. -/
def FPVal.isFinite : FPVal → Bool
  | .finite _ => true
  | .nonFinite => false

/-- The numerical data observed at one training step: the loss value and the
gradient entries. -/
structure StepData where
  loss : FPVal
  grads : List FPVal
  deriving DecidableEq

/-- Modelled from the spec: the fatal numerical failures of a training step. -/
inductive TrainFailure where
  | nonFiniteLoss
  | nonFiniteGradient
  deriving DecidableEq

/-- Whether the step observed any non-finite loss or gradient value. -/
def StepData.hasNonFinite (d : StepData) : Bool :=
  !d.loss.isFinite || d.grads.any (fun g => !g.isFinite)

/-- Modelled from the spec: one training step checks the loss and the gradients
for finiteness and halts with a fatal failure on any non-finite value;
otherwise it applies the optimizer update to the training state. -/
def trainStepChecked {σ : Type} (upd : σ → σ) (d : StepData) (s : σ) :
    Except TrainFailure σ :=
  if !d.loss.isFinite then .error .nonFiniteLoss
  else if d.grads.any (fun g => !g.isFinite) then .error .nonFiniteGradient
  else .ok (upd s)

/-- Modelled from the spec: run the training steps in order, halting at the
first fatal numerical failure. -/
def runTraining {σ : Type} (upd : σ → σ) : List StepData → σ → Except TrainFailure σ
  | [], s => .ok s
  | d :: ds, s =>
    match trainStepChecked upd d s with
    | .error e => .error e
    | .ok t => runTraining upd ds t

/-- Python `int()` applied to a rational: truncation toward zero. -/
def pyInt (q : ℚ) : ℤ := if 0 ≤ q then ⌊q⌋ else ⌈q⌉

/-- From the demo notebook: the autoencoder is constructed with
`n_learned_features = int(src_d_mlp * expansion_factor)`. -/
def nLearnedFeatures (srcDMlp : ℕ) (expansionFactor : ℚ) : ℤ :=
  pyInt (srcDMlp * expansionFactor)

/-- C8: for every input vector, `encode` returns learned activations that are
all ≥ 0 — the affine transform is followed by the rectification, which is
non-negative and zero-preserving, so no learned activation is ever negative. -/
theorem encode_activations_nonneg :
    (∀ (dIn : ℕ) (p : SAEParams ℚ) (x : ℕ → ℚ) (i : ℕ), 0 ≤ encodedActs dIn p x i)
    ∧ relu 0 = 0 := by
  constructor
  · intro dIn p x i
    simp only [encodedActs, relu]
    exact le_max_right _ _
  · simp [relu]

theorem foldl_add_snd (l : List (String × ℚ)) (a : ℚ) :
    l.foldl (fun acc it => acc + it.2) a = a + (l.map Prod.snd).sum := by
  induction l generalizing a with
  | nil => simp
  | cons x xs ih => simp [ih, add_assoc]

/-- C9: the scalar total loss returned by the loss reducer equals the sum of
its named sub-losses; in the demo configuration this is the L1 sparsity
penalty on learned activations plus the MSE reconstruction loss, with no other
contribution. -/
theorem loss_total_is_sum_of_sublosses :
    (∀ (subs : List (String × (ForwardOutput → ℚ))) (out : ForwardOutput),
        (reduceLosses subs out).1 = ((reduceLosses subs out).2.map Prod.snd).sum)
    ∧ (∀ (coef : ℚ) (out : ForwardOutput),
        (reduceLosses (demoLossConfig coef) out).1 =
          l1LossVal coef out.learnedActivations +
            mseLossVal out.sourceBatch out.reconstruction) := by
  constructor
  · intro subs out
    simp [reduceLosses, foldl_add_snd]
  · intro coef out
    simp [reduceLosses, demoLossConfig]

/-- C5: with store capacity 100 and a total activation budget of 250, the
pipeline performs exactly 3 full GENERATING→TRAINING cycles processing 100,
100 and 50 activations respectively (the last cycle trains on only 50
vectors), and then reaches the terminal DONE state (a fixed point of the step
function). -/
theorem pipeline_cycles_100_100_50 :
    (pipelineStep 100 250)^[6] initialPipelineState =
      { phase := .done, processed := 250, store := 0, cycles := [100, 100, 50] }
    ∧ pipelineStep 100 250
        { phase := .done, processed := 250, store := 0, cycles := [100, 100, 50] } =
      { phase := .done, processed := 250, store := 0, cycles := [100, 100, 50] } := by
  constructor <;> rfl

/-- C10 counterexample: the demo constructs the autoencoder with
`n_learned_features = int(src_d_mlp * expansion_factor)`, so for the positive
expansion factor 3/2 and input dimension 3 the number of learned features is
`int(4.5) = 4`, not `3 × (3/2) = 4.5`: the claimed equality fails for
non-integer products. -/
theorem nLearned_product_counterexample :
    (0 : ℚ) < 3 / 2 ∧ (nLearnedFeatures 3 (3 / 2) : ℚ) ≠ (3 : ℚ) * (3 / 2) := by
  constructor
  · norm_num
  · norm_num [nLearnedFeatures, pyInt]

/-- C10 (amended): the number of learned features is
`int(d_in * expansion_factor)` — the product truncated to an integer — which
equals `d_in × expansion_factor` exactly whenever the product is an integer,
in particular for every positive integer expansion factor. -/
theorem nLearned_eq_product_of_integral (srcDMlp : ℕ) (ef : ℚ)
    (hpos : 0 < ef) (hden : ((srcDMlp : ℚ) * ef).den = 1) :
    (nLearnedFeatures srcDMlp ef : ℚ) = (srcDMlp : ℚ) * ef := by
  have h0 : (0 : ℚ) ≤ (srcDMlp : ℚ) * ef := mul_nonneg (Nat.cast_nonneg _) hpos.le
  have hint : ((((srcDMlp : ℚ) * ef).num : ℤ) : ℚ) = (srcDMlp : ℚ) * ef :=
    (Rat.den_eq_one_iff _).mp hden
  unfold nLearnedFeatures pyInt
  rw [if_pos h0, ← hint, Int.floor_intCast]

/-- C10 witness: the demo's configuration — `src_d_mlp = 256` (the MLP width of
tiny-stories-1M) and `expansion_factor = 4` — satisfies the amended claim. -/
theorem nLearned_eq_product_witness :
    (0 : ℚ) < 4 ∧ (((256 : ℕ) : ℚ) * 4).den = 1 ∧
      (nLearnedFeatures 256 4 : ℚ) = ((256 : ℕ) : ℚ) * 4 := by
  refine ⟨by norm_num, by norm_num, nLearned_eq_product_of_integral 256 4 (by norm_num) (by norm_num)⟩

theorem appendAll_ok (batches : List (List (List ℚ))) :
    ∀ s : ActivationStore,
      s.items.length + (batches.map List.length).sum ≤ s.capacity →
      appendAll s batches =
        .ok { capacity := s.capacity, items := s.items ++ batches.flatten } := by
  induction batches with
  | nil => intro s h; simp [appendAll]
  | cons b bs ih =>
    intro s h
    simp only [List.map_cons, List.sum_cons] at h
    have hle : ¬ s.capacity < s.items.length + b.length := by omega
    rw [appendAll, ActivationStore.append, if_neg hle]
    show appendAll { capacity := s.capacity, items := s.items ++ b } bs =
      Except.ok { capacity := s.capacity, items := s.items ++ (b :: bs).flatten }
    rw [ih { capacity := s.capacity, items := s.items ++ b }
      (by simp only [List.length_append]; omega)]
    simp

/-- C3: for every valid configuration, after `append` calls totaling exactly
`capacity` vectors the store's size equals `capacity`; any further `append` of
one or more vectors fails with `CapacityExceeded`; and every successful
`append` leaves the count of stored vectors ≤ capacity. -/
theorem store_capacity_boundary (cap : ℕ) (batches : List (List (List ℚ)))
    (htotal : (batches.map List.length).sum = cap) :
    ∃ s : ActivationStore,
      appendAll (emptyStore cap) batches = .ok s ∧
      s.size = cap ∧
      (∀ vs : List (List ℚ), vs ≠ [] → s.append vs = .error .capacityExceeded) ∧
      (∀ (t t2 : ActivationStore) (vs : List (List ℚ)),
        t.append vs = .ok t2 → t2.size ≤ t2.capacity) := by
  have hflat : batches.flatten.length = cap := by
    rw [List.length_flatten]
    exact htotal
  refine ⟨{ capacity := cap, items := batches.flatten }, ?_, ?_, ?_, ?_⟩
  · exact appendAll_ok batches (emptyStore cap) (by simp [emptyStore, htotal])
  · simp [ActivationStore.size, hflat]
  · intro vs hvs
    have hpos : 0 < vs.length := List.length_pos.mpr hvs
    rw [ActivationStore.append, if_pos (by simp only [hflat]; omega)]
  · intro t t2 vs h
    rw [ActivationStore.append] at h
    split at h
    · cases h
    · cases h
      simp only [ActivationStore.size, List.length_append]
      omega

/-- C3 witness: with capacity 2, two appends of one vector each fill the store
exactly, and the boundary behaviour follows. -/
theorem store_capacity_boundary_witness :
    (([[[(0 : ℚ)]], [[(1 : ℚ)]]].map List.length).sum = 2) ∧
    ∃ s : ActivationStore,
      appendAll (emptyStore 2) [[[(0 : ℚ)]], [[(1 : ℚ)]]] = .ok s ∧
      s.size = 2 ∧
      (∀ vs : List (List ℚ), vs ≠ [] → s.append vs = .error .capacityExceeded) ∧
      (∀ (t t2 : ActivationStore) (vs : List (List ℚ)),
        t.append vs = .ok t2 → t2.size ≤ t2.capacity) :=
  ⟨rfl, store_capacity_boundary 2 [[[(0 : ℚ)]], [[(1 : ℚ)]]] rfl⟩

theorem chunks_flatten {α : Type} (bs : ℕ) (l : List α) :
    (chunks bs l).flatten = l := by
  have key : ∀ (n : ℕ) (l : List α), l.length ≤ n → (chunks bs l).flatten = l := by
    intro n
    induction n with
    | zero =>
      intro l hl
      have : l = [] := List.length_eq_zero.mp (Nat.le_zero.mp hl)
      subst this
      simp [chunks]
    | succ n ih =>
      intro l hl
      match l with
      | [] => simp [chunks]
      | x :: xs =>
        rw [chunks]
        simp only [List.flatten_cons, List.cons_append]
        rw [ih (xs.drop (bs - 1)) (by simp only [List.length_drop]; simp at hl; omega)]
        rw [List.take_append_drop]
  exact key l.length l le_rfl

/-- C4: a single call to `sample_batches(batch_size)` yields a finite sequence
of mini-batches whose vectors, taken together, are a permutation of (i.e.
equal as a multiset to) the stored vectors: every stored vector appears
exactly once per call, with no duplicates and no omissions. -/
theorem sample_batches_cover_all (randomDraw bs : ℕ) (s : ActivationStore) :
    (sampleBatches randomDraw bs s).flatten.Perm s.items := by
  unfold sampleBatches
  rw [chunks_flatten]
  exact List.rotate_perm s.items randomDraw

/-- C6: for every tracked parameter name and every set of feature indices,
`reset_state` zeroes exactly the corresponding slices of that parameter's
first/second moment buffers; it modifies neither the parameter values
themselves, nor the moments of any other slice, nor the moments of any other
parameter. -/
theorem reset_state_frame (o : AdamWithReset ℚ) (name : ParamName) (idxs : List ℕ) :
    ((o.resetState name idxs).params = o.params)
    ∧ (∀ i ∈ idxs, ∀ j : ℕ,
        paramAt (o.resetState name idxs).moments.m1 name i j = 0 ∧
        paramAt (o.resetState name idxs).moments.m2 name i j = 0)
    ∧ (∀ i ∉ idxs, ∀ j : ℕ,
        paramAt (o.resetState name idxs).moments.m1 name i j = paramAt o.moments.m1 name i j ∧
        paramAt (o.resetState name idxs).moments.m2 name i j = paramAt o.moments.m2 name i j)
    ∧ (∀ other : ParamName, other ≠ name → ∀ i j : ℕ,
        paramAt (o.resetState name idxs).moments.m1 other i j = paramAt o.moments.m1 other i j ∧
        paramAt (o.resetState name idxs).moments.m2 other i j = paramAt o.moments.m2 other i j) := by
  refine ⟨rfl, ?_, ?_, ?_⟩
  · intro i hi j
    cases name <;> simp [AdamWithReset.resetState, zeroFeatureSlices, paramAt, hi]
  · intro i hi j
    cases name <;> simp [AdamWithReset.resetState, zeroFeatureSlices, paramAt, hi]
  · intro other hne i j
    cases name <;> cases other <;>
      first
        | exact absurd rfl hne
        | simp [AdamWithReset.resetState, zeroFeatureSlices, paramAt]

/-- A concrete parameter set with all entries 1, for witnesses. -/
def demoQParams : SAEParams ℚ :=
  { tiedBias := fun _ => 1, encoderWeight := fun _ _ => 1,
    encoderBias := fun _ => 1, decoderWeight := fun _ _ => 1 }

/-- A concrete optimizer (parameters and both moment buffers all 1), for
witnesses. -/
def demoQOptimizer : AdamWithReset ℚ :=
  { params := demoQParams, moments := { m1 := demoQParams, m2 := demoQParams } }

/-- C6 witness: resetting the encoder-bias moments at feature 1 zeroes the
first-moment entry of feature 1. -/
theorem reset_state_frame_witness :
    (1 ∈ [1]) ∧
    paramAt ((demoQOptimizer.resetState .encoderBias [1]).moments.m1) .encoderBias 1 0 = 0 :=
  ⟨by decide, ((reset_state_frame demoQOptimizer .encoderBias [1]).2.1 1 (by decide) 0).1⟩

/-- C2: applying the resampler with dead features `dead` writes exactly the
corresponding encoder rows (to the new directions), encoder bias entries (to
zero) and decoder columns (to the new directions), and resets exactly those
features' first/second optimizer moment slices to their initial value zero;
every parameter entry and moment entry at any other feature index is
unchanged, the tied bias and its moments are untouched, and with zero dead
features the whole optimizer — moment buffers included — is identical to its
pre-call state. -/
theorem resampler_frame (dead : List ℕ) (dirs : ResampleDirections ℚ)
    (o : AdamWithReset ℚ) :
    (∀ i ∈ dead, ∀ j : ℕ,
        (applyResampling dead dirs o).params.encoderWeight i j = dirs.encRow i j ∧
        (applyResampling dead dirs o).params.encoderBias i = 0 ∧
        (applyResampling dead dirs o).params.decoderWeight i j = dirs.decCol i j ∧
        (applyResampling dead dirs o).moments.m1.encoderWeight i j = 0 ∧
        (applyResampling dead dirs o).moments.m2.encoderWeight i j = 0 ∧
        (applyResampling dead dirs o).moments.m1.encoderBias i = 0 ∧
        (applyResampling dead dirs o).moments.m2.encoderBias i = 0 ∧
        (applyResampling dead dirs o).moments.m1.decoderWeight i j = 0 ∧
        (applyResampling dead dirs o).moments.m2.decoderWeight i j = 0)
    ∧ (∀ i ∉ dead, ∀ j : ℕ,
        (applyResampling dead dirs o).params.encoderWeight i j = o.params.encoderWeight i j ∧
        (applyResampling dead dirs o).params.encoderBias i = o.params.encoderBias i ∧
        (applyResampling dead dirs o).params.decoderWeight i j = o.params.decoderWeight i j ∧
        (applyResampling dead dirs o).moments.m1.encoderWeight i j = o.moments.m1.encoderWeight i j ∧
        (applyResampling dead dirs o).moments.m2.encoderWeight i j = o.moments.m2.encoderWeight i j ∧
        (applyResampling dead dirs o).moments.m1.encoderBias i = o.moments.m1.encoderBias i ∧
        (applyResampling dead dirs o).moments.m2.encoderBias i = o.moments.m2.encoderBias i ∧
        (applyResampling dead dirs o).moments.m1.decoderWeight i j = o.moments.m1.decoderWeight i j ∧
        (applyResampling dead dirs o).moments.m2.decoderWeight i j = o.moments.m2.decoderWeight i j)
    ∧ (∀ j : ℕ,
        (applyResampling dead dirs o).params.tiedBias j = o.params.tiedBias j ∧
        (applyResampling dead dirs o).moments.m1.tiedBias j = o.moments.m1.tiedBias j ∧
        (applyResampling dead dirs o).moments.m2.tiedBias j = o.moments.m2.tiedBias j)
    ∧ (dead = [] → applyResampling dead dirs o = o) := by
  refine ⟨?_, ?_, ?_, ?_⟩
  · intro i hi j
    have hne : dead ≠ [] := List.ne_nil_of_mem hi
    simp [applyResampling, AdamWithReset.resetState, zeroFeatureSlices, hne, hi]
  · intro i hi j
    by_cases hd : dead = []
    · simp [applyResampling, hd]
    · simp [applyResampling, AdamWithReset.resetState, zeroFeatureSlices, hd, hi]
  · intro j
    by_cases hd : dead = []
    · simp [applyResampling, hd]
    · simp [applyResampling, AdamWithReset.resetState, zeroFeatureSlices, hd]
  · intro hd
    simp [applyResampling, hd]

/-- Concrete replacement directions, for witnesses. -/
def demoDirections : ResampleDirections ℚ :=
  { decCol := fun _ _ => 2, encRow := fun _ _ => 3 }

/-- C2 witness: resampling the single dead feature 0 writes the new encoder
row entry there. -/
theorem resampler_frame_witness :
    (0 ∈ [0]) ∧
    (applyResampling [0] demoDirections demoQOptimizer).params.encoderWeight 0 0 =
      demoDirections.encRow 0 0 :=
  ⟨by decide, ((resampler_frame [0] demoDirections demoQOptimizer).1 0 (by decide) 0).1⟩

theorem runTraining_cons_bad {σ : Type} (upd : σ → σ) (d : StepData)
    (ds : List StepData) (s : σ) (hd : d.hasNonFinite = true) :
    ∃ e, runTraining upd (d :: ds) s = .error e := by
  unfold StepData.hasNonFinite at hd
  rw [Bool.or_eq_true] at hd
  by_cases hl : (!d.loss.isFinite) = true
  · exact ⟨.nonFiniteLoss, by simp [runTraining, trainStepChecked, hl]⟩
  · have hl2 : (!d.loss.isFinite) = false := by
      revert hl; cases (!d.loss.isFinite) <;> simp
    have hg : d.grads.any (fun g => !g.isFinite) = true := by
      rcases hd with h | h
      · exact absurd h hl
      · exact h
    exact ⟨.nonFiniteGradient, by simp [runTraining, trainStepChecked, hl2, hg]⟩

theorem runTraining_bad_somewhere {σ : Type} (upd : σ → σ) :
    ∀ (ds : List StepData) (s : σ),
      (∃ d ∈ ds, d.hasNonFinite = true) → ∃ e, runTraining upd ds s = .error e := by
  intro ds
  induction ds with
  | nil =>
    intro s h
    rcases h with ⟨d, hd, _⟩
    cases hd
  | cons d0 ds ih =>
    intro s h
    by_cases h0 : d0.hasNonFinite = true
    · exact runTraining_cons_bad upd d0 ds s h0
    · have h0f : d0.hasNonFinite = false := by
        revert h0; cases d0.hasNonFinite <;> simp
      have hparts : (!d0.loss.isFinite) = false ∧
          d0.grads.any (fun g => !g.isFinite) = false := by
        constructor <;>
          (revert h0f; unfold StepData.hasNonFinite;
            cases (!d0.loss.isFinite) <;>
              cases d0.grads.any (fun g => !g.isFinite) <;> simp)
      obtain ⟨hl, hg⟩ := hparts
      rcases h with ⟨d, hmem, hbad⟩
      rcases List.mem_cons.mp hmem with rfl | hdm
      · simp [h0f] at hbad
      · obtain ⟨e, he⟩ := ih (upd s) ⟨d, hdm, hbad⟩
        refine ⟨e, ?_⟩
        simp only [runTraining, trainStepChecked, hl, hg]
        simpa using he

theorem runTraining_all_good {σ : Type} (upd : σ → σ) :
    ∀ (ds : List StepData) (s : σ),
      (∀ d ∈ ds, d.hasNonFinite = false) →
      runTraining upd ds s = .ok (ds.foldl (fun t _ => upd t) s) := by
  intro ds
  induction ds with
  | nil => intro s _; rfl
  | cons d0 ds ih =>
    intro s hall
    have h0f : d0.hasNonFinite = false := hall d0 (by simp)
    have hparts : (!d0.loss.isFinite) = false ∧
        d0.grads.any (fun g => !g.isFinite) = false := by
      constructor <;>
        (revert h0f; unfold StepData.hasNonFinite;
          cases (!d0.loss.isFinite) <;>
            cases d0.grads.any (fun g => !g.isFinite) <;> simp)
    obtain ⟨hl, hg⟩ := hparts
    simp only [runTraining, trainStepChecked, hl, hg, List.foldl_cons]
    simpa using ih (upd s) (fun d hd => hall d (List.mem_cons_of_mem _ hd))

/-- C7: at every training step the loss and gradients are checked for
finiteness; a non-finite loss or gradient anywhere in the run is fatal — the
run halts with an error and never silently continues — while a run whose
steps are all finite completes normally, applying exactly the optimizer
updates of its steps. -/
theorem nonfinite_loss_is_fatal {σ : Type} (upd : σ → σ) (ds : List StepData) (s : σ) :
    ((∃ d ∈ ds, d.hasNonFinite = true) → ∃ e, runTraining upd ds s = .error e)
    ∧ ((∀ d ∈ ds, d.hasNonFinite = false) →
        runTraining upd ds s = .ok (ds.foldl (fun t _ => upd t) s)) :=
  ⟨runTraining_bad_somewhere upd ds s, runTraining_all_good upd ds s⟩

/-- C7 witness: a run whose single step observes a non-finite loss halts with
an error. -/
theorem nonfinite_loss_is_fatal_witness :
    (∃ d ∈ [StepData.mk .nonFinite []], d.hasNonFinite = true) ∧
    ∃ e, runTraining (id : ℕ → ℕ) [StepData.mk .nonFinite []] 0 = .error e :=
  ⟨⟨StepData.mk .nonFinite [], by decide⟩,
    (nonfinite_loss_is_fatal (id : ℕ → ℕ) [StepData.mk .nonFinite []] 0).1
      ⟨StepData.mk .nonFinite [], by decide⟩⟩

theorem normSqCol_nonneg (dIn : ℕ) (p : SAEParams ℝ) (i : ℕ) :
    0 ≤ normSqCol dIn p i :=
  Finset.sum_nonneg fun _ _ => sq_nonneg _

theorem normSqCol_constrain (dIn : ℕ) (q : SAEParams ℝ) (i : ℕ)
    (h : normSqCol dIn q i ≠ 0) :
    normSqCol dIn (constrainUnitNorm dIn q) i = 1 := by
  have hS : (0 : ℝ) ≤ normSqCol dIn q i := normSqCol_nonneg dIn q i
  have hrw : normSqCol dIn (constrainUnitNorm dIn q) i
      = normSqCol dIn q i / (l2normCol dIn q i) ^ 2 := by
    simp [normSqCol, constrainUnitNorm, div_pow, Finset.sum_div]
  rw [hrw, l2normCol, Real.sq_sqrt hS, div_self h]

/-- C1: after every optimizer step of the training loop — modelled as an
arbitrary parameter update followed by the decoder renormalization that runs
before the next forward pass — every decoder weight column (of nonzero norm)
has L2 norm exactly equal to 1. -/
theorem decoder_columns_unit_norm (dIn : ℕ)
    (optStep : SAEParams ℝ → SAEParams ℝ) (p : SAEParams ℝ) (i : ℕ)
    (h : normSqCol dIn (optStep p) i ≠ 0) :
    l2normCol dIn (trainStepWithRenorm dIn optStep p) i = 1 := by
  unfold trainStepWithRenorm
  rw [l2normCol, normSqCol_constrain dIn (optStep p) i h, Real.sqrt_one]

/-- A concrete real-valued parameter set whose decoder column 0 is (3, 4), for
the C1 witness. -/
noncomputable def demoRParams : SAEParams ℝ :=
  { tiedBias := fun _ => 0, encoderWeight := fun _ _ => 0,
    encoderBias := fun _ => 0,
    decoderWeight := fun _ j => if j = 0 then 3 else 4 }

/-- C1 witness: with input dimension 2, the identity as optimizer step and a
decoder column (3, 4), the renormalized column has L2 norm 1. -/
theorem decoder_columns_unit_norm_witness :
    normSqCol 2 (id demoRParams) 0 ≠ 0 ∧
    l2normCol 2 (trainStepWithRenorm 2 id demoRParams) 0 = 1 := by
  have h : normSqCol 2 (id demoRParams) 0 ≠ 0 := by
    simp [normSqCol, demoRParams, Finset.sum_range_succ]
    norm_num
  exact ⟨h, decoder_columns_unit_norm 2 id demoRParams 0 h⟩
